import Mathlib

/-!
# FlintDB — a shallow embedding of the core data model and query engine

This file embeds, in Lean, the parts of the FlintDB flat-file document store
needed to settle the specification claims: the Python value domain and its
comparison/truthiness semantics, dictionary (association-list) operations,
`Schema.add` / `Schema.valid`, `Crypto.encrypt` / `Crypto.decrypt`,
`Table.insert`, `Row.column` / `Row.columns`, `Cache.valid`, the `Query`
builder with `Query.normalize`, and the executor `Query.fetch`
(where / select / distinct / sort stages plus limit-offset slicing).

Every definition is a direct translation of the corresponding Python source
(`flintdb/schema.py`, `crypto.py`, `table.py`, `row.py`, `cache.py`,
`query.py`).  Python exceptions are modelled with `Except PyErr`; machine-level
behaviour (real file descriptors, fsync, Fernet byte layout) is abstracted to
the level the control flow of the source observes it.
-/

namespace FlintDB

/-- The closed domain of column values used by the embedding: Python `None`,
`bool`, `int` and `str`.  (The store also admits `list`/`dict`/`float` values;
none of the claims exercise them, and all definitions below are faithful on
this restricted domain.) -/
inductive Value where
  | null : Value
  | bool (b : Bool) : Value
  | int (n : Int) : Value
  | str (s : String) : Value
deriving DecidableEq, Repr

/-- Python exceptions observed by the embedded code paths. -/
inductive PyErr where
  | valueError (msg : String) : PyErr
  | typeError (msg : String) : PyErr
  | nameError (missing : String) : PyErr
  | unboundLocal (var : String) : PyErr
  | osError (msg : String) : PyErr
deriving DecidableEq, Repr

instance {ε α : Type} [DecidableEq ε] [DecidableEq α] : DecidableEq (Except ε α) := fun a b =>
  match a, b with
  | .ok x, .ok y =>
    if h : x = y then .isTrue (by rw [h]) else .isFalse (fun he => h (Except.ok.inj he))
  | .error x, .error y =>
    if h : x = y then .isTrue (by rw [h]) else .isFalse (fun he => h (Except.error.inj he))
  | .ok _, .error _ => .isFalse (fun he => Except.noConfusion he)
  | .error _, .ok _ => .isFalse (fun he => Except.noConfusion he)

/-- Python runtime types occurring in `Schema.valid_types`. -/
inductive PyType where
  | list | bool | float | int | dict | str | nonetype
deriving DecidableEq, Repr

/-- `type(v)` for the embedded value domain. -/
def Value.typeOf : Value → PyType
  | .null => .nonetype
  | .bool _ => .bool
  | .int _ => .int
  | .str _ => .str

/-- Python `isinstance(v, t)`; note that `bool` is a subclass of `int`. -/
def isinstance : Value → PyType → Bool
  | .null, _ => false
  | .bool _, t => t = .bool || t = .int
  | .int _, t => t = .int
  | .str _, t => t = .str

/-- Python truthiness of a value. -/
def Value.truthy : Value → Bool
  | .null => false
  | .bool b => b
  | .int n => n ≠ 0
  | .str s => s ≠ ""

/-- Truthiness of the result of `dict.get` (`None` when the key is absent). -/
def optTruthy : Option Value → Bool
  | none => false
  | some v => v.truthy

/-- Numeric view used by Python comparisons: `bool` is coerced to `0`/`1`. -/
def Value.asNum : Value → Option Int
  | .bool b => some (if b then 1 else 0)
  | .int n => some n
  | _ => none

/-- Code-point lexicographic `<` on character lists — Python's string `<`. -/
def charListLt : List Char → List Char → Bool
  | _, [] => false
  | [], _ :: _ => true
  | a :: as, b :: bs => if a < b then true else if b < a then false else charListLt as bs

/-- Code-point lexicographic `<=` on character lists — Python's string `<=`. -/
def charListLe : List Char → List Char → Bool
  | [], _ => true
  | _ :: _, [] => false
  | a :: as, b :: bs => if a < b then true else if b < a then false else charListLe as bs

/-- Python `a < b` for strings. -/
def pyStrLt (a b : String) : Bool := charListLt a.toList b.toList

/-- Python `a <= b` for strings. -/
def pyStrLe (a b : String) : Bool := charListLe a.toList b.toList

/-- Python `==` on the embedded domain (numbers compare across `bool`/`int`;
mismatched types compare unequal without raising). -/
def pyEq (a b : Value) : Bool :=
  match a.asNum, b.asNum with
  | some x, some y => x = y
  | _, _ =>
    match a, b with
    | .str s, .str t => s = t
    | .null, .null => true
    | _, _ => false

/-- Python `<` on the embedded domain; `none` models a `TypeError` for
unordered operand types. -/
def pyLt (a b : Value) : Option Bool :=
  match a.asNum, b.asNum with
  | some x, some y => some (x < y)
  | _, _ =>
    match a, b with
    | .str s, .str t => some (pyStrLt s t)
    | _, _ => none

/-- Python `<=` (`a <= b  ↔  a < b ∨ a == b` on these types). -/
def pyLe (a b : Value) : Option Bool :=
  match pyLt a b with
  | none => none
  | some l => some (l || pyEq a b)

/-- Python `str(v)`. -/
def Value.pyStr : Value → String
  | .null => "None"
  | .bool b => if b then "True" else "False"
  | .int n => toString n
  | .str s => s

/-! ## Association-list model of Python `dict`

Python dictionaries preserve insertion order; updating an existing key keeps
its position, a new key is appended.  All dictionaries built by the source
have pairwise-distinct keys by construction. -/

/-- `d.get(k)`. -/
def dictGet {α : Type} (d : List (String × α)) (k : String) : Option α :=
  match d with
  | [] => none
  | (k', v) :: rest => if k' = k then some v else dictGet rest k

/-- `d[k] = v`. -/
def dictSet {α : Type} (d : List (String × α)) (k : String) (v : α) : List (String × α) :=
  match d with
  | [] => [(k, v)]
  | (k', v') :: rest => if k' = k then (k', v) :: rest else (k', v') :: dictSet rest k v

/-- `del d[k]` (no-op when absent; the source always deletes present keys). -/
def dictDel {α : Type} (d : List (String × α)) (k : String) : List (String × α) :=
  match d with
  | [] => []
  | (k', v') :: rest => if k' = k then rest else (k', v') :: dictDel rest k

/-- `list(d.keys())`. -/
def dictKeys {α : Type} (d : List (String × α)) : List String := d.map Prod.fst

/-- Repeated `d[k] = v` for a list of pairs. -/
def dictInsertAll {α : Type} (d : List (String × α)) (ps : List (String × α)) :
    List (String × α) :=
  match ps with
  | [] => d
  | (k, v) :: rest => dictInsertAll (dictSet d k v) rest

/-! ## Schema (`schema.py`)

`Schema._schema` maps a column name to `{"type", "encrypted", "required"}`
plus, for enum columns, `"enum_values"`. -/

/-- One column definition as stored in `Schema._schema` / table metadata. -/
structure SchemaCol where
  type : String
  encrypted : Bool
  required : Bool
  enumValues : Option (List Value)
deriving DecidableEq, Repr

/-- The `Schema` object: definition dict plus the `_has_encrypted_columns` flag. -/
structure SchemaState where
  cols : List (String × SchemaCol)
  hasEnc : Bool
deriving DecidableEq, Repr

/-- `Schema()`. -/
def SchemaState.empty : SchemaState := ⟨[], false⟩

/-- The keyword arguments accepted by `Schema.add` (already coerced with
`bool(...)` as the source does; `enum_values` is `None` when absent and the
source only accepts a `list` for it). -/
structure Kwargs where
  encrypted : Bool
  required : Bool
  enumValues : Option (List Value)
deriving DecidableEq, Repr

/-- `Schema.valid_types()`: the supported type names (all spelled with a
leading `"@"`) and their allowed runtime types. -/
def validTypes : List (String × List PyType) :=
  [("@list", [.list]),
   ("@bool", [.bool]),
   ("@enum", [.list, .bool, .float, .int, .dict, .str]),
   ("@float", [.float]),
   ("@integer", [.int]),
   ("@numeric", [.str, .int, .float]),
   ("@object", [.dict]),
   ("@text", [.str])]

namespace Schema

/-- `Schema.add(column_name, column_type, **kwargs)`.

Note the guard checks membership of `column_type` in `valid_types().keys()`
(all of which start with `"@"`), while the enum-specific block is guarded by
`"enum" == column_type`: since `"enum"` is not a supported key, a caller must
spell the type `"@enum"`, and then the enum block is skipped — the
`enum_values` checks and the deduplicated `enum_values` entry are dead code. -/
def add (s : SchemaState) (columnName columnType : String) (kw : Kwargs) :
    Except PyErr SchemaState :=
  if ¬ (dictKeys validTypes).contains columnType then
    .error (.valueError ("Unsupported type for column " ++ columnName))
  else
    let hasEnc := s.hasEnc || kw.encrypted
    let cols := dictSet s.cols columnName
      ⟨columnType, kw.encrypted, kw.required, none⟩
    if columnType = "enum" then
      -- unreachable: "enum" is not in valid_types().keys()
      match kw.enumValues with
      | none => .error (.typeError "ENUM values must be of type list")
      | some [] => .error (.valueError "ENUM values cannot be empty")
      | some vs =>
        if 1 < (vs.map Value.typeOf).eraseDups.length then
          .error (.valueError "ENUM values must be of the same type")
        else
          .ok ⟨dictSet cols columnName
                ⟨columnType, kw.encrypted, kw.required, some vs.eraseDups⟩, hasEnc⟩
    else
      .ok ⟨cols, hasEnc⟩

/-- `Schema.valid(column_name, value)`.

The enum-membership branch compares `data["type"]` against the bare string
`"enum"`, which is never the stored spelling (`"@enum"`), so it never fires;
an enum column is then validated only by the runtime-type loop, which for
`"@enum"` admits every supported runtime type. -/
def valid (s : SchemaState) (columnName : String) (value : Value) : Bool :=
  match dictGet s.cols columnName with
  | none => true
  | some data =>
    if ¬ data.required ∧ value = .null then true
    else if data.type = "enum" ∧ ¬ (data.enumValues.getD []).any (pyEq value) then false
    else ((dictGet validTypes data.type).getD []).any (isinstance value)

/-- `Schema.has_encrypted_columns()`. -/
def hasEncryptedColumns (s : SchemaState) : Bool := s.hasEnc

end Schema

/-- Rebuild a `Schema` object from stored table metadata, as
`Table.insert` / `Row.columns` do with
`schema.add(column, options["type"], **options)`. -/
def buildSchema (meta : List (String × SchemaCol)) : Except PyErr SchemaState :=
  meta.foldlM
    (fun s p => Schema.add s p.1 p.2.type ⟨p.2.encrypted, p.2.required, p.2.enumValues⟩)
    SchemaState.empty

/-! ## Crypto (`crypto.py`) -/

namespace Crypto

/-- `Crypto.encrypt(data, kek)`: a Fernet token over the JSON encoding of the
value.  The token layout is opaque to the rest of the code; it is modelled as
an injective tagged string. -/
def encrypt (data : Value) (kek : Value) : String :=
  "fernet:" ++ kek.pyStr ++ ":" ++ toString (repr data)

/-- `Crypto.decrypt(cipher, kek)`: the body reads
`fernet.decrypt(data.encode("utf-8"))`, but the parameter is named `cipher`
and no local `data` exists, so every call raises
`NameError: name 'data' is not defined` before touching the ciphertext. -/
def decrypt (_cipher : Value) (_kek : Value) : Except PyErr Value :=
  .error (.nameError "data")

/-- `Crypto.hash(data)`: xxh64 of the pickled argument.  Modelled as a
deterministic function of a canonical serialization of the argument. -/
def hashModel (serialized : String) : String := serialized

end Crypto

/-! ## Sorting by key

`dict(sorted(d.items()))` and `sorted(d.items())` sort the item tuples; all
dictionaries involved have pairwise-distinct keys, so tuple comparison is
decided by the key alone and the value components are never compared. -/

/-- Key order on dictionary items. -/
def keyLe {α : Type} (a b : String × α) : Prop := pyStrLe a.1 b.1 = true

instance {α : Type} : DecidableRel (keyLe (α := α)) :=
  fun a b => inferInstanceAs (Decidable (pyStrLe a.1 b.1 = true))

/-- `sorted(d.items())` (stable, ascending by key). -/
def sortByKey {α : Type} (d : List (String × α)) : List (String × α) :=
  List.insertionSort keyLe d

/-! ## Row files, tables (`table.py`, `row.py`)

A row file holds a header line (the JSON array of column names, sorted) and
one JSON value line per column; `_id` is the file stem, never a line.  JSON
encoding round-trips exactly on the embedded value domain and is modelled as
the identity, so stored lines are `Value`s (an encrypted column stores its
Fernet token string). -/

/-- One on-disk row file. -/
structure RowFile where
  header : List String
  values : List Value
deriving DecidableEq, Repr

/-- A table: its metadata schema, its DEK token, and its directory of row
files keyed by row id. -/
structure TableState where
  schema : List (String × SchemaCol)
  dek : Value
  rows : List (String × RowFile)
deriving DecidableEq, Repr

/-- The pairing loop of `Row.columns`: walk header names and value lines
together, decrypting the values of columns the schema marks encrypted (`dek`
is only bound when the schema has encrypted columns; such a column cannot
occur otherwise). -/
def zipDecrypt (schema : SchemaState) (dek : Option Value) :
    List String → List Value → Except PyErr (List (String × Value))
  | k :: ks, v :: vs => do
    let v' ←
      if ((dictGet schema.cols k).map SchemaCol.encrypted).getD false then
        Crypto.decrypt v (dek.getD .null)
      else pure v
    let rest ← zipDecrypt schema dek ks vs
    return (k, v') :: rest
  | _, _ => .ok []

namespace Row

/-- `Row.columns()`: schema columns from the file (decrypted as needed), then
the in-memory overlay columns, then `("_id", id)` last. -/
def columnsData (t : TableState) (kek : Value) (custom : List (String × Value))
    (id : String) : Except PyErr (List (String × Value)) :=
  match dictGet t.rows id with
  | none => .error (.osError "row file missing")
  | some rf =>
    match buildSchema t.schema with
    | .error e => .error e
    | .ok schema =>
      if schema.hasEnc then
        if ¬ kek.truthy then
          .error (.valueError "KEK must be provided to decrypt columns")
        else
          match Crypto.decrypt t.dek kek with
          | .error e => .error e
          | .ok dekV =>
            if ¬ dekV.truthy then .error (.valueError "Invalid KEK provided")
            else do
              let pairs ← zipDecrypt schema (some dekV) rf.header rf.values
              return pairs ++ custom ++ [("_id", .str id)]
      else do
        let pairs ← zipDecrypt schema none rf.header rf.values
        return pairs ++ custom ++ [("_id", .str id)]

/-- `Row.column(column_name)`: `_id` directly; header columns read their value
line (decrypting if the table schema marks the column encrypted); other names
fall back to the in-memory overlay, else `None`. -/
def column (t : TableState) (kek : Value) (custom : List (String × Value))
    (id : String) (columnName : String) : Except PyErr Value :=
  if columnName = "_id" then .ok (.str id)
  else
    match dictGet t.rows id with
    | none => .error (.osError "row file missing")
    | some rf =>
      if ¬ rf.header.contains columnName then
        .ok ((dictGet custom columnName).getD .null)
      else
        let idx := rf.header.indexOf columnName
        let data := rf.values.getD idx (.str "")
        if ¬ t.schema.isEmpty then
          match dictGet t.schema columnName with
          | some col =>
            if col.encrypted then
              if ¬ kek.truthy then
                .error (.valueError "KEK must be provided to decrypt columns")
              else
                match Crypto.decrypt t.dek kek with
                | .error e => .error e
                | .ok dekV =>
                  if ¬ dekV.truthy then .error (.valueError "Invalid KEK provided")
                  else Crypto.decrypt data dekV
            else .ok data
          | none => .ok data
        else .ok data

end Row

namespace Table

/-- `Table.insert(columns)`.

When `_id` is supplied: `Table.row(id)` merely constructs `Row(id, self)` and
raises nothing, so the `ValueError` guard that would report
"ID does not match any row" is dead; and since the local variable `id` is
assigned only on the fresh-id branch, building the target path
`folder / f"{id}.ndjson"` afterwards raises `UnboundLocalError` — every
update-by-id attempt fails with it, so the merge branch below is unreachable
(on the fresh-id branch the generation loop exits only on a filename that
does not exist; `fresh` is that post-loop identifier). -/
def insert (kek : Value) (t : TableState) (columns : List (String × Value))
    (fresh : String) : Except PyErr (TableState × Bool) :=
  if columns.isEmpty then .error (.valueError "Columns cannot be empty")
  else if optTruthy (dictGet columns "_id") then .error (.unboundLocal "id")
  else
    let id := fresh
    let columns := dictSet columns "_id" (.str fresh)
    let filled : Except PyErr (List (String × Value)) :=
      match dictGet t.rows id with
      | some _ =>
        -- unreachable (see the doc comment): carry forward existing columns
        match Row.columnsData t kek [] id with
        | .error e => .error e
        | .ok rowCols =>
          .ok (rowCols.foldl
            (fun cs p => if (dictGet cs p.1).isSome then cs else dictSet cs p.1 p.2)
            columns)
      | none =>
        .ok (t.schema.foldl
          (fun cs p => if (dictGet cs p.1).isSome then cs else dictSet cs p.1 .null)
          columns)
    match filled with
    | .error e => .error e
    | .ok columns =>
      let checked : Except PyErr (Option SchemaState) :=
        if t.schema.isEmpty then .ok none
        else
          match buildSchema t.schema with
          | .error e => .error e
          | .ok schema =>
            match columns.find? (fun p => ¬ Schema.valid schema p.1 p.2) with
            | some p => .error (.valueError ("Invalid data type for column: " ++ p.1))
            | none => .ok (some schema)
      match checked with
      | .error e => .error e
      | .ok schemaOpt =>
        let hasEnc := (schemaOpt.map Schema.hasEncryptedColumns).getD false
        let cols := sortByKey (dictDel columns "_id")
        let header := cols.map Prod.fst
        if hasEnc then
          if ¬ kek.truthy then .error (.valueError "KEK required to encrypt columns")
          else
            match Crypto.decrypt t.dek kek with
            | .error e => .error e
            | .ok dekV =>
              if ¬ dekV.truthy then .error (.valueError "Wrong KEK provided")
              else
                -- unreachable: Crypto.decrypt never succeeds
                let schemaS := schemaOpt.getD SchemaState.empty
                let values := cols.map (fun p =>
                  if ((dictGet schemaS.cols p.1).map SchemaCol.encrypted).getD false then
                    Value.str (Crypto.encrypt p.2 dekV)
                  else p.2)
                .ok (⟨t.schema, t.dek, dictSet t.rows id ⟨header, values⟩⟩, true)
        else
          .ok (⟨t.schema, t.dek, dictSet t.rows id ⟨header, cols.map Prod.snd⟩⟩, true)

end Table

/-! ## Cache (`cache.py`) -/

namespace Cache

/-- `Cache.valid()` for a fingerprinted entry, returning the boolean result
and the entry's state after the call (`none` when the file was deleted).

`file` is the entry's creation time when the file exists.  The source method
reads no clock: it compares the file's `st_birthtime` against the configured
expiration cutoff.  `_checkTime` is a phantom parameter recording the moment
at which `valid()` is invoked, so that (in)dependence on the check time can be
stated; it does not appear on the right-hand side, exactly as in the source. -/
def valid (file : Option Int) (expiration : Option Int) (_checkTime : Int) :
    Bool × Option Int :=
  match file with
  | none => (false, none)
  | some birth =>
    match expiration with
    | none => (true, some birth)
    | some cutoff =>
      if birth > cutoff then (false, none)
      else (true, some birth)

end Cache

/-! ## Where predicates (`query.py`, class `Where`)

`Where.match` wraps its evaluation in `try ... except (TypeError, IndexError):
return False`; the `Option Bool` comparison helpers model a raised `TypeError`
as `none`, turned into a non-match.  `like` escapes the (stringified) value,
rewrites `%` to `.*` and `_` to `.`, and uses `re.search` — i.e. the pattern
may match anywhere inside the text.  (`.` in Python regexes does not cross a
newline; the claims exercise no newline inputs.) -/

/-- Fullmatch of a prefix of the text against the glob
(`%` = any run, `_` = one character, other characters literal). -/
def globPrefix : List Char → List Char → Bool
  | [], _ => true
  | '%' :: ps, [] => globPrefix ps []
  | '%' :: ps, t :: ts => globPrefix ps (t :: ts) || globPrefix ('%' :: ps) ts
  | '_' :: ps, _ :: ts => globPrefix ps ts
  | p :: ps, t :: ts => p = t && globPrefix ps ts
  | _ :: _, [] => false
termination_by p t => p.length + t.length

/-- `re.search`: the pattern may start matching at any position. -/
def globSearch (p : List Char) (t : List Char) : Bool :=
  t.tails.any (globPrefix p)

/-- `row_value in value` (`none` = `TypeError`).  On this value domain the
only container is a string (substring test requiring a string left operand);
list-valued criteria lie outside the embedded domain. -/
def pyIn (x container : Value) : Option Bool :=
  match container with
  | .str s =>
    match x with
    | .str sub => some (s.toList.tails.any (fun t => sub.toList.isPrefixOf t))
    | _ => none
  | _ => none

/-- `row_value ≤ b` / `b ≤ row_value` as booleans with `TypeError ↦ false`. -/
def pyLeB (a b : Value) : Bool := (pyLe a b).getD false

/-- Reversed-argument counterpart of `pyLeB`. -/
def pyGeB (a b : Value) : Bool := (pyLe b a).getD false

/-- Whether Python can order the two values (no `TypeError`). -/
def comparableB (a b : Value) : Bool := (pyLe a b).isSome

/-- `"between"`: `row_value >= value[0] and row_value <= value[1]`; on this
domain the subscriptable value is a string (`value[i]` a one-character
string); a missing index raises `IndexError`, caught as non-match. -/
def pyBetween (rv v : Value) : Bool :=
  match v with
  | .str s =>
    match s.toList with
    | [] => false
    | c0 :: rest =>
      match pyLe (.str c0.toString) rv with
      | none => false
      | some false => false
      | some true =>
        match rest with
        | [] => false
        | c1 :: _ => pyLeB rv (.str c1.toString)
  | _ => false

/-- `"not between"` as written in the source:
`row_value <= value[0] and row_value >= value[1]`. -/
def pyNotBetween (rv v : Value) : Bool :=
  match v with
  | .str s =>
    match s.toList with
    | [] => false
    | c0 :: rest =>
      match pyLe rv (.str c0.toString) with
      | none => false
      | some false => false
      | some true =>
        match rest with
        | [] => false
        | c1 :: _ => pyGeB rv (.str c1.toString)
  | _ => false

/-- An executor row: the visible (column, value) association.  The claims
exercise plain in-memory rows, for which `row[name]` returns the stored value
and an absent name falls back to `None` (`Row.column`'s overlay default). -/
def PyRow : Type := List (String × Value)

instance : DecidableEq PyRow := inferInstanceAs (DecidableEq (List (String × Value)))
instance : Repr PyRow := inferInstanceAs (Repr (List (String × Value)))

/-- `row[column]` for executor rows. -/
def rowGet (r : PyRow) (c : String) : Value := (dictGet r c).getD .null

/-- `Where.match()` for criteria `[column_name, operator, value]`. -/
def whereMatch (row : PyRow) (columnName op : String) (value : Value) : Bool :=
  let rowValue := rowGet row columnName
  if op = "=" ∨ op = "eq" ∨ op = "is" then pyEq rowValue value
  else if op = "!=" ∨ op = "neq" ∨ op = "is not" then ! pyEq rowValue value
  else if op = ">" ∨ op = "gt" then (pyLt value rowValue).getD false
  else if op = ">=" ∨ op = "gte" then pyGeB rowValue value
  else if op = "<" ∨ op = "lt" then (pyLt rowValue value).getD false
  else if op = "<=" ∨ op = "lte" then pyLeB rowValue value
  else if op = "in" ∨ op = "is in" then (pyIn rowValue value).getD false
  else if op = "not in" then
    match pyIn rowValue value with
    | none => false
    | some b => ! b
  else if op = "between" then pyBetween rowValue value
  else if op = "not between" then pyNotBetween rowValue value
  else if op = "like" then
    if ¬ value.pyStr.contains '%' ∧ ¬ value.pyStr.contains '_' then pyEq rowValue value
    else globSearch value.pyStr.toList rowValue.pyStr.toList
  else if op = "not like" then
    if ¬ value.pyStr.contains '%' ∧ ¬ value.pyStr.contains '_' then ! pyEq rowValue value
    else ! globSearch value.pyStr.toList rowValue.pyStr.toList
  else false

/-! ## Query executor (`Query.fetch`)

The executor is modelled on the normalized clause lists, for queries with no
`join`, `map` or `filter` registered (those stages hold live callbacks and
sub-queries; every claim input leaves them empty, so their loops do not run).
The limit pair is `Query._limit = [offset, max]`, `[0, None]` when unset. -/

/-- The normalized query content consumed by the executor. -/
structure FetchSpec where
  whereCl : List (String × (String × Value))
  select : List (String × String)
  distinct : List String
  sortCl : List (String × Bool)
  limit : Nat × Option Nat
deriving Repr

/-- `row.rename_column(old, new)` applied for every select clause. -/
def renameColumns (select : List (String × String)) (r : PyRow) : PyRow :=
  select.foldl
    (fun (acc : List (String × Value)) p =>
      acc.map (fun q => if q.1 = p.1 then (p.2, q.2) else q))
    r

/-- One iteration of the `for row in self._table.rows()` loop: the where
clauses each append the row on their own match (`data.append(row)` sits
inside the per-criterion loop), then `if row not in data: continue`, then the
select renames are applied to the row object.  Membership and the in-place
rename are modelled by value equality; every claim input has pairwise-distinct
row values, for which this agrees with Python object identity. -/
def processRow (q : FetchSpec) (data : List PyRow) (row : PyRow) : List PyRow :=
  let data :=
    if q.whereCl.isEmpty then data ++ [row]
    else
      q.whereCl.foldl
        (fun d c => if whereMatch row c.1 c.2.1 c.2.2 then d ++ [row] else d)
        data
  if ¬ data.contains row then data
  else
    let renamed := renameColumns q.select row
    data.map (fun r => if r = row then renamed else r)

/-- One `distinct` pass: keep the first row seen per distinct value of the
column (`values` is the growing seen-set; Python set membership agrees with
`pyEq` on this domain). -/
def distinctGo (col : String) (seen : List Value) : List PyRow → List PyRow
  | [] => []
  | r :: rs =>
    let v := rowGet r col
    if seen.any (pyEq v) then distinctGo col seen rs
    else r :: distinctGo col (v :: seen) rs

/-- `data[:] = [row for row in data if row[column] not in values and ...]`. -/
def distinctPass (data : List PyRow) (col : String) : List PyRow :=
  distinctGo col [] data

/-- One `sort` pass: `data.sort(key=lambda row: row[sort[0]],
reverse=sort[1])`.  The stored order flag `sort[1]` is `True` for `"ASC"`, so
an ascending request sorts with `reverse=True`.  Python's stable sort over
mutually comparable keys equals the stable insertion sort by the
corresponding non-strict key order; a `TypeError` during comparison is caught
(`except TypeError: pass`), modelled as leaving the list unchanged. -/
def sortPass (data : List PyRow) (sortEntry : String × Bool) : List PyRow :=
  let col := sortEntry.1
  let rev := sortEntry.2
  if data.all (fun a => data.all (fun b => comparableB (rowGet a col) (rowGet b col))) then
    if rev then
      List.insertionSort (fun a b => pyGeB (rowGet a col) (rowGet b col) = true) data
    else
      List.insertionSort (fun a b => pyLeB (rowGet a col) (rowGet b col) = true) data
  else data

/-- Python list slicing `l[start:stop]` with non-negative bounds. -/
def pySlice {α : Type} (l : List α) (start : Nat) (stop : Option Nat) : List α :=
  match stop with
  | none => l.drop start
  | some e => (l.take e).drop start

/-- The pre-slice result list of `Query.fetch` (steps: row loop with
where/select, then distinct, then sort). -/
def fetchData (q : FetchSpec) (rows : List PyRow) : List PyRow :=
  let data := rows.foldl (processRow q) []
  let data := q.distinct.foldl distinctPass data
  let data := q.sortCl.foldl sortPass data
  data

/-- `Query.fetch()` on a cache miss: the pre-slice list sliced by
`[self._limit[0] : self._limit[1]]`, i.e. `data[offset:max]`. -/
def fetchResult (q : FetchSpec) (rows : List PyRow) : List PyRow :=
  pySlice (fetchData q rows) q.limit.1 q.limit.2

/-- `Query.fetch()` on a valid cache hit:
`cache.get()[self._limit[0] : self._limit[1]]`. -/
def fetchCached (cached : List PyRow) (limit : Nat × Option Nat) : List PyRow :=
  pySlice cached limit.1 limit.2

/-! ## Query builder and normalizer (`Query`, `Query.normalize`)

`_query` holds per-category clause containers: `join`/`where`/`select` are
dicts keyed by table/column/source-name, `distinct`/`sort` are lists, and
`map`/`filter` are lists of `[callback, callback.__doc__]` pairs.  A callback
is a live function object, modelled by its object identity (a `Nat`) together
with its docstring; Python can test function objects for equality but cannot
order them, so sorting a `map`/`filter` list whose entries carry two distinct
callbacks raises `TypeError` inside `normalize`. -/

/-- A single builder call.  `sort`'s order string has already been validated
and converted: the stored flag is `True` iff the order was `"ASC"`.  `join`'s
`on` clause is `[left_column, operator, right_column]` and the column prefix
defaults to `table_name + "."`. -/
inductive Call where
  | whereC (column op : String) (value : Value)
  | joinC (tableName leftCol onOp rightCol : String) (pfx : Option String)
  | selectC (oldName newName : String)
  | distinctC (column : String)
  | sortC (column : String) (asc : Bool)
  | mapC (cb : Nat) (doc : String)
  | filterC (cb : Nat) (doc : String)
deriving DecidableEq, Repr

/-- The builder's `_query` content (absent categories as empty containers). -/
structure QueryState where
  join : List (String × ((String × String × String) × String))
  whereCl : List (String × (String × Value))
  select : List (String × String)
  distinct : List String
  sortCl : List (String × Bool)
  mapCb : List (Nat × String)
  filterCb : List (Nat × String)
deriving DecidableEq, Repr

/-- `Query(database)` — no clauses registered. -/
def QueryState.empty : QueryState := ⟨[], [], [], [], [], [], []⟩

/-- One builder method call applied to the query content. -/
def applyCall (s : QueryState) (c : Call) : QueryState :=
  match c with
  | .whereC col op v => { s with whereCl := dictSet s.whereCl col (op, v) }
  | .joinC t l o r pfx => { s with join := dictSet s.join t ((l, o, r), pfx.getD (t ++ ".")) }
  | .selectC a b => { s with select := dictSet s.select a b }
  | .distinctC c => { s with distinct := s.distinct ++ [c] }
  | .sortC c asc => { s with sortCl := s.sortCl ++ [(c, asc)] }
  | .mapC f d => { s with mapCb := s.mapCb ++ [(f, d)] }
  | .filterC f d => { s with filterCb := s.filterCb ++ [(f, d)] }

/-- A sequence of builder calls applied to a fresh query. -/
def applyCalls (l : List Call) : QueryState := l.foldl applyCall QueryState.empty

/-- Order on `String` used by `sorted()` over names. -/
def strLe (a b : String) : Prop := pyStrLe a b = true

instance : DecidableRel strLe :=
  fun a b => inferInstanceAs (Decidable (pyStrLe a b = true))

/-- Lexicographic order on `[column, bool]` sort entries
(`False < True`, as in Python). -/
def sbLe (a b : String × Bool) : Prop :=
  pyStrLt a.1 b.1 = true ∨ (a.1 = b.1 ∧ (!a.2 || b.2) = true)

instance : DecidableRel sbLe :=
  fun a b =>
    inferInstanceAs (Decidable (pyStrLt a.1 b.1 = true ∨ (a.1 = b.1 ∧ (!a.2 || b.2) = true)))

/-- Lexicographic order on `[callback, doc]` entries with equal-identity
callbacks (the only case Python can finish sorting). -/
def cbLe (a b : Nat × String) : Prop :=
  a.1 < b.1 ∨ (a.1 = b.1 ∧ pyStrLe a.2 b.2 = true)

instance : DecidableRel cbLe :=
  fun a b =>
    inferInstanceAs (Decidable (a.1 < b.1 ∨ (a.1 = b.1 ∧ pyStrLe a.2 b.2 = true)))

/-- Whether all callbacks of a `map`/`filter` list are the same object. -/
def idsAllEq : List (Nat × String) → Bool
  | [] => true
  | e :: es => es.all (fun x => x.1 == e.1)

/-- `self._query["map"].sort()` (likewise for `filter`): comparing two
entries first tests the callbacks for equality and, when they differ, asks
for `callback1 < callback2`, which raises `TypeError` for function objects.
A comparison sort of a list drawn from two or more identity classes must
perform such a cross-class comparison, so the sort completes exactly when all
entries share one callback, and then orders by the remaining component. -/
def sortCallbacks (l : List (Nat × String)) : Except PyErr (List (Nat × String)) :=
  if idsAllEq l then .ok (List.insertionSort cbLe l)
  else .error (.typeError "unorderable function objects")

/-- The canonical descriptor produced by `Query.normalize` (category order as
in the final `dict(sorted(self._query.items()))`). -/
structure Descriptor where
  distinct : List String
  filterCb : List (Nat × String)
  join : List (String × ((String × String × String) × String))
  mapCb : List (Nat × String)
  select : List (String × String)
  sortCl : List (String × Bool)
  whereCl : List (String × (String × Value))
deriving DecidableEq, Repr

/-- `Query.normalize()`: each category's items are sorted independently
(dict categories by key — their keys are pairwise distinct, so the tuple
comparison never reaches the values).  The `map` sort runs before the
`filter` sort, as in the source, and either may raise. -/
def normalize (s : QueryState) : Except PyErr Descriptor :=
  match sortCallbacks s.mapCb with
  | .error e => .error e
  | .ok mapS =>
    match sortCallbacks s.filterCb with
    | .error e => .error e
    | .ok filterS =>
      .ok { join := sortByKey s.join
            mapCb := mapS
            whereCl := sortByKey s.whereCl
            select := sortByKey s.select
            distinct := List.insertionSort strLe s.distinct
            sortCl := List.insertionSort sbLe s.sortCl
            filterCb := filterS }

/-- The cache fingerprint of a normalized query:
`Crypto.hash(self._query)` — a deterministic content hash of the canonical
descriptor, modelled over its canonical serialization. -/
def queryFingerprint (d : Descriptor) : String :=
  Crypto.hashModel (toString (repr d))

/-! ## Concrete instances used by the claims -/

/-- Row `{a:1, b:1}` of the where-conjunction example. -/
def rowA1B1 : PyRow := [("a", .int 1), ("b", .int 1)]

/-- Row `{a:1, b:2}` of the where-conjunction example. -/
def rowA1B2 : PyRow := [("a", .int 1), ("b", .int 2)]

/-- Row `{a:2, b:1}` of the where-conjunction example. -/
def rowA2B1 : PyRow := [("a", .int 2), ("b", .int 1)]

/-- The normalized query `where(a,"=",1)` + `where(b,"=",1)`. -/
def whereQuery : FetchSpec :=
  ⟨[("a", ("=", .int 1)), ("b", ("=", .int 1))], [], [], [], (0, none)⟩

/-- Row `{x:., y:.}` of the sort-precedence example. -/
def rowXY (x y : Int) : PyRow := [("x", .int x), ("y", .int y)]

/-- The query `sort(x, "ASC")` then `sort(y, "ASC")` (order flags stored as
`True` for `"ASC"`). -/
def sortQuery : FetchSpec := ⟨[], [], [], [("x", true), ("y", true)], (0, none)⟩

/-- Row `{n:.}` of the limit example. -/
def rowN (i : Int) : PyRow := [("n", .int i)]

/-- A query with only `limit(3, offset=2)` set: `_limit = [2, 3]`. -/
def limitQuery : FetchSpec := ⟨[], [], [], [], (2, some 3)⟩

/-- A query with no clauses and the limit unset: `_limit = [0, None]`. -/
def noLimitQuery : FetchSpec := ⟨[], [], [], [], (0, none)⟩

/-- A table whose schema declares one encrypted text column, with no rows. -/
def encTable : TableState :=
  ⟨[("secret", ⟨"@text", true, false, none⟩)], .str "dektok", []⟩

/-- The same table holding one row whose encrypted column stores a token. -/
def encTableWithRow : TableState :=
  ⟨[("secret", ⟨"@text", true, false, none⟩)],
   .str "dektok",
   [("r1", ⟨["secret"], [.str "ciphertok"]⟩)]⟩

/-- A table with one plaintext integer column and no rows. -/
def plainTable : TableState :=
  ⟨[("a", ⟨"@integer", false, false, none⟩)], .str "", []⟩

/-- The schema state after `Schema().add("color", "@enum")` with no
`enum_values`. -/
def enumState : SchemaState :=
  ⟨[("color", ⟨"@enum", false, false, none⟩)], false⟩

/-! ## Per-category views of a builder call sequence -/

/-- The `(column ↦ [operator, value])` updates performed by the `where` calls
of a call sequence, in call order. -/
def whereOf (l : List Call) : List (String × (String × Value)) :=
  l.filterMap fun c =>
    match c with
    | .whereC a o v => some (a, (o, v))
    | _ => none

/-- The `(table ↦ [on, prefix])` updates performed by the `join` calls. -/
def joinOf (l : List Call) : List (String × ((String × String × String) × String)) :=
  l.filterMap fun c =>
    match c with
    | .joinC t a o b pfx => some (t, ((a, o, b), pfx.getD (t ++ ".")))
    | _ => none

/-- The `(old ↦ new)` updates performed by the `select` calls. -/
def selectOf (l : List Call) : List (String × String) :=
  l.filterMap fun c =>
    match c with
    | .selectC a b => some (a, b)
    | _ => none

/-- A set of builder calls covering every modelled category, in one order. -/
def c6CallsA : List Call :=
  [.whereC "b" "=" (.int 2), .whereC "a" ">" (.int 1), .sortC "x" true,
   .distinctC "z", .selectC "u" "v", .joinC "t" "l" "=" "r" none,
   .mapC 7 "mdoc", .filterC 9 "fdoc", .distinctC "y", .sortC "x" false]

/-- The same set of builder calls in another order. -/
def c6CallsB : List Call :=
  [.sortC "x" false, .distinctC "y", .filterC 9 "fdoc", .mapC 7 "mdoc",
   .joinC "t" "l" "=" "r" none, .selectC "u" "v", .distinctC "z",
   .sortC "x" true, .whereC "a" ">" (.int 1), .whereC "b" "=" (.int 2)]

/-- The columns appended by the `distinct` calls, in call order. -/
def distinctOf (l : List Call) : List String :=
  l.filterMap fun c =>
    match c with
    | .distinctC a => some a
    | _ => none

/-- The `[column, order]` entries appended by the `sort` calls. -/
def sortOf (l : List Call) : List (String × Bool) :=
  l.filterMap fun c =>
    match c with
    | .sortC a b => some (a, b)
    | _ => none

/-- The `[callback, doc]` entries appended by the `map` calls. -/
def mapOf (l : List Call) : List (Nat × String) :=
  l.filterMap fun c =>
    match c with
    | .mapC f d => some (f, d)
    | _ => none

/-- The `[callback, doc]` entries appended by the `filter` calls. -/
def filterOf (l : List Call) : List (Nat × String) :=
  l.filterMap fun c =>
    match c with
    | .filterC f d => some (f, d)
    | _ => none

/-- Strict key order on dictionary items (used to show a key-sorted list with
pairwise-distinct keys is unique). -/
def keyLt {α : Type} (a b : String × α) : Prop := pyStrLt a.1 b.1 = true

/-! ## Order facts for the code-point string comparison -/

theorem charListLe_total : ∀ x y : List Char, charListLe x y = true ∨ charListLe y x = true
  | [], _ => Or.inl rfl
  | _ :: _, [] => Or.inr rfl
  | a :: as, b :: bs => by
    rcases lt_trichotomy a b with h | h | h
    · exact Or.inl (by simp [charListLe, h])
    · subst h
      rcases charListLe_total as bs with h2 | h2
      · exact Or.inl (by simp [charListLe, h2])
      · exact Or.inr (by simp [charListLe, h2])
    · exact Or.inr (by simp [charListLe, h])

theorem charListLe_trans : ∀ x y z : List Char,
    charListLe x y = true → charListLe y z = true → charListLe x z = true
  | [], _, _, _, _ => rfl
  | a :: as, [], _, h1, _ => by simp [charListLe] at h1
  | _ :: _, _ :: _, [], _, h2 => by simp [charListLe] at h2
  | a :: as, b :: bs, c :: cs, h1, h2 => by
    rcases lt_trichotomy a b with hab | hab | hab
    · rcases lt_trichotomy b c with hbc | hbc | hbc
      · simp [charListLe, lt_trans hab hbc]
      · subst hbc; simp [charListLe, hab]
      · simp [charListLe, hbc, lt_asymm hbc] at h2
    · subst hab
      rcases lt_trichotomy a c with hac | hac | hac
      · simp [charListLe, hac]
      · subst hac
        simp only [charListLe, lt_irrefl, if_false] at h1 h2 ⊢
        exact charListLe_trans as bs cs h1 h2
      · simp [charListLe, hac, lt_asymm hac] at h2
    · simp [charListLe, hab, lt_asymm hab] at h1

theorem charListLe_antisymm : ∀ x y : List Char,
    charListLe x y = true → charListLe y x = true → x = y
  | [], [], _, _ => rfl
  | [], _ :: _, _, h2 => by simp [charListLe] at h2
  | _ :: _, [], h1, _ => by simp [charListLe] at h1
  | a :: as, b :: bs, h1, h2 => by
    rcases lt_trichotomy a b with hab | hab | hab
    · simp [charListLe, hab, lt_asymm hab] at h2
    · subst hab
      simp only [charListLe, lt_irrefl, if_false] at h1 h2
      rw [charListLe_antisymm as bs h1 h2]
    · simp [charListLe, hab, lt_asymm hab] at h1

theorem charListLt_asymm : ∀ x y : List Char,
    charListLt x y = true → charListLt y x = true → False
  | [], _, _, h2 => by simp [charListLt] at h2
  | _ :: _, [], h1, _ => by simp [charListLt] at h1
  | a :: as, b :: bs, h1, h2 => by
    rcases lt_trichotomy a b with hab | hab | hab
    · simp [charListLt, hab, lt_asymm hab] at h2
    · subst hab
      simp only [charListLt, lt_irrefl, if_false] at h1 h2
      exact charListLt_asymm as bs h1 h2
    · simp [charListLt, hab, lt_asymm hab] at h1

theorem charListLt_of_le_of_ne : ∀ x y : List Char,
    charListLe x y = true → x ≠ y → charListLt x y = true
  | [], [], _, hne => absurd rfl hne
  | [], _ :: _, _, _ => rfl
  | _ :: _, [], h1, _ => by simp [charListLe] at h1
  | a :: as, b :: bs, h1, hne => by
    rcases lt_trichotomy a b with hab | hab | hab
    · simp [charListLt, hab]
    · subst hab
      simp only [charListLe, lt_irrefl, if_false] at h1
      simp only [charListLt, lt_irrefl, if_false]
      exact charListLt_of_le_of_ne as bs h1 (fun he => hne (he ▸ rfl))
    · simp [charListLe, hab, lt_asymm hab] at h1

theorem pyStrLt_of_le_of_ne {a b : String} (h1 : pyStrLe a b = true) (hne : a ≠ b) :
    pyStrLt a b = true :=
  charListLt_of_le_of_ne a.toList b.toList h1
    (fun he => hne (String.toList_inj.mp he))

theorem pyStrLe_antisymm {a b : String} (h1 : pyStrLe a b = true)
    (h2 : pyStrLe b a = true) : a = b :=
  String.toList_inj.mp (charListLe_antisymm a.toList b.toList h1 h2)

theorem pyStrLt_not_lt {a b : String} (h1 : pyStrLt a b = true) :
    ¬ pyStrLt b a = true :=
  fun h2 => charListLt_asymm a.toList b.toList h1 h2

theorem charListLt_le : ∀ x y : List Char, charListLt x y = true → charListLe x y = true
  | [], [], h => by simp [charListLt] at h
  | [], _ :: _, _ => rfl
  | _ :: _, [], h => by simp [charListLt] at h
  | a :: as, b :: bs, h => by
    rcases lt_trichotomy a b with hab | hab | hab
    · simp [charListLe, hab]
    · subst hab
      simp only [charListLt, lt_irrefl, if_false] at h
      simp only [charListLe, lt_irrefl, if_false]
      exact charListLt_le as bs h
    · simp [charListLt, hab, lt_asymm hab] at h

theorem pyStrLe_of_lt {a b : String} (h : pyStrLt a b = true) : pyStrLe a b = true :=
  charListLt_le a.toList b.toList h

theorem pyStrLt_trans {a b c : String} (h1 : pyStrLt a b = true)
    (h2 : pyStrLt b c = true) : pyStrLt a c = true := by
  by_cases hac : a = c
  · subst hac
    exact absurd h2 (pyStrLt_not_lt h1)
  · refine pyStrLt_of_le_of_ne ?_ hac
    exact charListLe_trans a.toList b.toList c.toList (pyStrLe_of_lt h1) (pyStrLe_of_lt h2)

theorem pyStrLt_ne {a b : String} (h : pyStrLt a b = true) : a ≠ b := by
  intro he
  subst he
  exact pyStrLt_not_lt h h

theorem strLe_total : ∀ a b : String, strLe a b ∨ strLe b a :=
  fun a b => charListLe_total a.toList b.toList

theorem strLe_trans : ∀ a b c : String, strLe a b → strLe b c → strLe a c :=
  fun a b c h1 h2 => charListLe_trans a.toList b.toList c.toList h1 h2

theorem strLe_antisymm : ∀ a b : String, strLe a b → strLe b a → a = b :=
  fun _ _ h1 h2 => pyStrLe_antisymm h1 h2

theorem sbLe_total : ∀ a b : String × Bool, sbLe a b ∨ sbLe b a := by
  intro a b
  by_cases he : a.1 = b.1
  · cases h2 : a.2 <;> cases h3 : b.2
    · exact Or.inl (Or.inr ⟨he, by simp [h2]⟩)
    · exact Or.inl (Or.inr ⟨he, by simp [h2]⟩)
    · exact Or.inr (Or.inr ⟨he.symm, by simp [h2, h3]⟩)
    · exact Or.inl (Or.inr ⟨he, by simp [h3]⟩)
  · rcases charListLe_total a.1.toList b.1.toList with h | h
    · exact Or.inl (Or.inl (pyStrLt_of_le_of_ne h he))
    · exact Or.inr (Or.inl (pyStrLt_of_le_of_ne h (fun h2 => he h2.symm)))

theorem sbLe_trans : ∀ a b c : String × Bool, sbLe a b → sbLe b c → sbLe a c := by
  intro a b c h1 h2
  rcases h1 with h1 | ⟨h1e, h1b⟩ <;> rcases h2 with h2 | ⟨h2e, h2b⟩
  · exact Or.inl (pyStrLt_trans h1 h2)
  · exact Or.inl (h2e ▸ h1)
  · exact Or.inl (h1e ▸ h2)
  · refine Or.inr ⟨h1e.trans h2e, ?_⟩
    cases ha : a.2 <;> cases hc : c.2 <;> simp_all

theorem sbLe_antisymm : ∀ a b : String × Bool, sbLe a b → sbLe b a → a = b := by
  intro a b h1 h2
  rcases h1 with h1 | ⟨h1e, h1b⟩
  · rcases h2 with h2 | ⟨h2e, _⟩
    · exact absurd h2 (pyStrLt_not_lt h1)
    · exact absurd h2e.symm (pyStrLt_ne h1)
  · rcases h2 with h2 | ⟨_, h2b⟩
    · exact absurd h1e.symm (pyStrLt_ne h2)
    · refine Prod.ext h1e ?_
      cases ha : a.2 <;> cases hb : b.2 <;> simp_all

theorem cbLe_total : ∀ a b : Nat × String, cbLe a b ∨ cbLe b a := by
  intro a b
  rcases Nat.lt_trichotomy a.1 b.1 with h | h | h
  · exact Or.inl (Or.inl h)
  · rcases charListLe_total a.2.toList b.2.toList with h2 | h2
    · exact Or.inl (Or.inr ⟨h, h2⟩)
    · exact Or.inr (Or.inr ⟨h.symm, h2⟩)
  · exact Or.inr (Or.inl h)

theorem cbLe_trans : ∀ a b c : Nat × String, cbLe a b → cbLe b c → cbLe a c := by
  intro a b c h1 h2
  rcases h1 with h1 | ⟨h1e, h1b⟩ <;> rcases h2 with h2 | ⟨h2e, h2b⟩
  · exact Or.inl (Nat.lt_trans h1 h2)
  · exact Or.inl (h2e ▸ h1)
  · exact Or.inl (h1e ▸ h2)
  · exact Or.inr ⟨h1e.trans h2e,
      charListLe_trans a.2.toList b.2.toList c.2.toList h1b h2b⟩

theorem cbLe_antisymm : ∀ a b : Nat × String, cbLe a b → cbLe b a → a = b := by
  intro a b h1 h2
  rcases h1 with h1 | ⟨h1e, h1b⟩
  · rcases h2 with h2 | ⟨h2e, _⟩
    · exact absurd h2 (Nat.lt_asymm h1)
    · exact absurd (h2e ▸ h1) (Nat.lt_irrefl b.1)
  · rcases h2 with h2 | ⟨_, h2b⟩
    · exact absurd (h1e ▸ h2) (Nat.lt_irrefl b.1)
    · exact Prod.ext h1e (pyStrLe_antisymm h1b h2b)

/-! ## Dictionary and sorting lemmas -/

theorem dictSet_of_not_mem {α : Type} (d : List (String × α)) (k : String) (v : α)
    (h : k ∉ dictKeys d) : dictSet d k v = d ++ [(k, v)] := by
  induction d with
  | nil => rfl
  | cons p rest ih =>
    simp only [dictKeys, List.map_cons, List.mem_cons] at h
    push_neg at h
    obtain ⟨h1, h2⟩ := h
    cases p with
    | mk pk pv =>
      simp only [dictSet, List.cons_append]
      rw [if_neg (fun he => h1 he.symm), ih h2]

theorem dictInsertAll_of_nodup {α : Type} (ps : List (String × α)) :
    ∀ d : List (String × α), (∀ k ∈ ps.map Prod.fst, k ∉ dictKeys d) →
      (ps.map Prod.fst).Nodup → dictInsertAll d ps = d ++ ps := by
  induction ps with
  | nil => intro d _ _; simp [dictInsertAll]
  | cons p rest ih =>
    intro d hdisj hnd
    simp only [List.map_cons, List.nodup_cons] at hnd
    rw [dictInsertAll, dictSet_of_not_mem d p.1 p.2 (hdisj p.1 (by simp))]
    rw [ih (d ++ [(p.1, p.2)]) ?_ hnd.2]
    · simp
    · intro k hk
      simp only [dictKeys, List.map_append, List.mem_append, List.map_cons,
        List.map_nil, List.mem_singleton]
      rintro (hkd | hke)
      · exact hdisj k (by simp [hk]) hkd
      · exact hnd.1 (hke ▸ hk)

theorem dictInsertAll_nil_of_nodup {α : Type} (ps : List (String × α))
    (hnd : (ps.map Prod.fst).Nodup) : dictInsertAll [] ps = ps := by
  rw [dictInsertAll_of_nodup ps [] (fun k _ hk => by simp [dictKeys] at hk) hnd]
  simp

/-- Two key-sorted permutations of a list with pairwise-distinct keys are
equal. -/
theorem sortByKey_eq_of_perm {α : Type} {ps qs : List (String × α)}
    (h : ps.Perm qs) (hn : (ps.map Prod.fst).Nodup) : sortByKey ps = sortByKey qs := by
  haveI : IsTotal (String × α) keyLe :=
    ⟨fun a b => charListLe_total a.1.toList b.1.toList⟩
  haveI : IsTrans (String × α) keyLe :=
    ⟨fun a b c h1 h2 => charListLe_trans a.1.toList b.1.toList c.1.toList h1 h2⟩
  haveI : IsAntisymm (String × α) keyLt :=
    ⟨fun a b h1 h2 => (charListLt_asymm a.1.toList b.1.toList h1 h2).elim⟩
  have hperm : (sortByKey ps).Perm (sortByKey qs) :=
    (List.perm_insertionSort keyLe ps).trans
      (h.trans (List.perm_insertionSort keyLe qs).symm)
  have key_nodup : ∀ rs : List (String × α), rs.Perm ps →
      (List.insertionSort keyLe rs).Pairwise (fun a b => a.1 ≠ b.1) := by
    intro rs hrs
    have : ((List.insertionSort keyLe rs).map Prod.fst).Nodup := by
      refine (List.Perm.nodup_iff ?_).mpr hn
      exact ((List.perm_insertionSort keyLe rs).trans hrs).map Prod.fst
    exact (List.pairwise_map).mp this
  have strict : ∀ rs : List (String × α), rs.Perm ps →
      (List.insertionSort keyLe rs).Pairwise keyLt := by
    intro rs hrs
    have hs : (List.insertionSort keyLe rs).Pairwise keyLe :=
      List.sorted_insertionSort keyLe rs
    exact (hs.and (key_nodup rs hrs)).imp
      (fun hab => pyStrLt_of_le_of_ne hab.1 hab.2)
  exact List.eq_of_perm_of_sorted hperm
    (strict ps (List.Perm.refl ps)) (strict qs h.symm)

/-- Two `r`-sorted permutations are equal when `r` is a total antisymmetric
preorder. -/
theorem insertionSort_eq_of_perm {α : Type} (r : α → α → Prop) [DecidableRel r]
    [IsTotal α r] [IsTrans α r] [IsAntisymm α r] {l1 l2 : List α}
    (h : l1.Perm l2) : List.insertionSort r l1 = List.insertionSort r l2 :=
  List.eq_of_perm_of_sorted
    ((List.perm_insertionSort r l1).trans (h.trans (List.perm_insertionSort r l2).symm))
    (List.sorted_insertionSort r l1) (List.sorted_insertionSort r l2)

theorem idsAllEq_iff_pairwise (l : List (Nat × String)) :
    idsAllEq l = true ↔ l.Pairwise (fun a b => a.1 = b.1) := by
  induction l with
  | nil => simp [idsAllEq]
  | cons e es ih =>
    simp only [idsAllEq, List.all_eq_true, beq_iff_eq, List.pairwise_cons]
    constructor
    · intro hall
      refine ⟨fun x hx => (hall x hx).symm, ?_⟩
      refine List.pairwise_of_forall_mem_list ?_
      intro a ha b hb
      rw [hall a ha, hall b hb]
    · intro ⟨hhead, _⟩ x hx
      exact (hhead x hx).symm

theorem sortCallbacks_eq_of_perm {l1 l2 : List (Nat × String)} (h : l1.Perm l2) :
    sortCallbacks l1 = sortCallbacks l2 := by
  have hids : idsAllEq l1 = idsAllEq l2 := by
    by_cases h1 : idsAllEq l1 = true
    · have h2 : idsAllEq l2 = true := by
        rw [idsAllEq_iff_pairwise] at h1 ⊢
        exact h.pairwise h1 (fun hxy => hxy.symm)
      rw [h1, h2]
    · have h2 : ¬ idsAllEq l2 = true := by
        rw [idsAllEq_iff_pairwise] at h1 ⊢
        exact fun hp => h1 (h.symm.pairwise hp (fun hxy => hxy.symm))
      rw [Bool.not_eq_true] at h1 h2
      rw [h1, h2]
  haveI : IsTotal (Nat × String) cbLe := ⟨cbLe_total⟩
  haveI : IsTrans (Nat × String) cbLe := ⟨cbLe_trans⟩
  haveI : IsAntisymm (Nat × String) cbLe := ⟨cbLe_antisymm⟩
  unfold sortCallbacks
  rw [hids]
  by_cases hid : idsAllEq l2 = true
  · rw [hid, if_pos rfl, if_pos rfl, insertionSort_eq_of_perm cbLe h]
  · rw [Bool.not_eq_true] at hid
    rw [hid]
    simp

/-! ## Factoring the builder fold through each category -/

theorem foldl_whereCl (l : List Call) :
    ∀ s : QueryState, (l.foldl applyCall s).whereCl = dictInsertAll s.whereCl (whereOf l) := by
  induction l with
  | nil => intro s; rfl
  | cons c rest ih =>
    intro s
    cases c <;>
      simp only [List.foldl_cons, whereOf, List.filterMap_cons, applyCall, dictInsertAll] <;>
      exact ih _

theorem foldl_join (l : List Call) :
    ∀ s : QueryState, (l.foldl applyCall s).join = dictInsertAll s.join (joinOf l) := by
  induction l with
  | nil => intro s; rfl
  | cons c rest ih =>
    intro s
    cases c <;>
      simp only [List.foldl_cons, joinOf, List.filterMap_cons, applyCall, dictInsertAll] <;>
      exact ih _

theorem foldl_select (l : List Call) :
    ∀ s : QueryState, (l.foldl applyCall s).select = dictInsertAll s.select (selectOf l) := by
  induction l with
  | nil => intro s; rfl
  | cons c rest ih =>
    intro s
    cases c <;>
      simp only [List.foldl_cons, selectOf, List.filterMap_cons, applyCall, dictInsertAll] <;>
      exact ih _

theorem foldl_distinct (l : List Call) :
    ∀ s : QueryState, (l.foldl applyCall s).distinct = s.distinct ++ distinctOf l := by
  induction l with
  | nil => intro s; simp [distinctOf]
  | cons c rest ih =>
    intro s
    cases c <;>
      simp only [List.foldl_cons, distinctOf, List.filterMap_cons, applyCall] <;>
      rw [ih] <;> simp [distinctOf]

theorem foldl_sortCl (l : List Call) :
    ∀ s : QueryState, (l.foldl applyCall s).sortCl = s.sortCl ++ sortOf l := by
  induction l with
  | nil => intro s; simp [sortOf]
  | cons c rest ih =>
    intro s
    cases c <;>
      simp only [List.foldl_cons, sortOf, List.filterMap_cons, applyCall] <;>
      rw [ih] <;> simp [sortOf]

theorem foldl_mapCb (l : List Call) :
    ∀ s : QueryState, (l.foldl applyCall s).mapCb = s.mapCb ++ mapOf l := by
  induction l with
  | nil => intro s; simp [mapOf]
  | cons c rest ih =>
    intro s
    cases c <;>
      simp only [List.foldl_cons, mapOf, List.filterMap_cons, applyCall] <;>
      rw [ih] <;> simp [mapOf]

theorem foldl_filterCb (l : List Call) :
    ∀ s : QueryState, (l.foldl applyCall s).filterCb = s.filterCb ++ filterOf l := by
  induction l with
  | nil => intro s; simp [filterOf]
  | cons c rest ih =>
    intro s
    cases c <;>
      simp only [List.foldl_cons, filterOf, List.filterMap_cons, applyCall] <;>
      rw [ih] <;> simp [filterOf]

/-! ## Claim theorems -/

/-- C1: the claim states that a row appears in the fetched result iff it
satisfies the conjunction of every registered where predicate, and at most
once — so over rows `{a:1,b:1}`, `{a:1,b:2}`, `{a:2,b:1}` with predicates
`where(a,"=",1)` and `where(b,"=",1)` exactly `{a:1,b:1}` would be returned.
The executor instead appends the row once per individually matching
predicate (`data.append(row)` sits inside the per-criterion loop), so the
fetched result contains `{a:1,b:1}` twice and also both rows that fail one of
the two predicates. -/
theorem c1_where_appends_per_predicate :
    fetchResult whereQuery [rowA1B1, rowA1B2, rowA2B1] =
      [rowA1B1, rowA1B1, rowA1B2, rowA2B1] ∧
    fetchResult whereQuery [rowA1B1, rowA1B2, rowA2B1] ≠ [rowA1B1] := by
  decide

/-- C2: the claim states that `insert(columns)` followed by reading the row's
`columns()` returns the inserted values exactly, for encrypted and plaintext
columns alike.  For any schema with an encrypted column the round trip cannot
even start: `Table.insert` must unwrap the table DEK via `Crypto.decrypt`,
whose body references the undefined name `data`, so the insert raises
`NameError`; reading an existing encrypted row through `Row.columns()` fails
with the same `NameError`. -/
theorem c2_roundtrip_impossible_for_encrypted_columns :
    Table.insert (.str "kekbytes") encTable [("secret", .str "hi")] "id1" =
      .error (.nameError "data") ∧
    Row.columnsData encTableWithRow (.str "kekbytes") [] "r1" =
      .error (.nameError "data") := by
  decide

/-- C3: the claim states that `Table.insert` with a supplied `_id` raises an
id-not-found error for a dangling id and otherwise merges the existing row's
columns into the rewritten file.  In the source, `Table.row(id)` only
constructs a handle and never raises, so the not-found guard is dead, and the
local variable `id` is bound only on the fresh-id branch — every insert that
supplies a truthy `_id` dies with `UnboundLocalError` instead, whether or not
the row exists. -/
theorem c3_insert_with_id_raises_unbound_local
    (kek : Value) (t : TableState) (columns : List (String × Value)) (fresh : String)
    (h : optTruthy (dictGet columns "_id") = true) :
    Table.insert kek t columns fresh = .error (.unboundLocal "id") := by
  cases columns with
  | nil => simp [dictGet, optTruthy] at h
  | cons p ps => simp [Table.insert, h]

/-- Witness for C3 at a concrete update payload against a table that does
hold no row named `abc` (and the same error results when it does). -/
theorem c3_insert_with_id_witness :
    optTruthy (dictGet [("_id", Value.str "abc"), ("a", Value.int 1)] "_id") = true ∧
    Table.insert (.str "kek") encTable [("_id", .str "abc"), ("a", .int 1)] "zz" =
      .error (.unboundLocal "id") :=
  ⟨by decide, c3_insert_with_id_raises_unbound_local _ _ _ _ (by decide)⟩

/-- C4: the claim states that a set limit slices the result as
`[offset : offset+max]` on both the cache-hit path and the executed path.
Both paths actually slice `data[self._limit[0] : self._limit[1]]`, i.e.
`data[offset : max]`: with `limit(3, offset=2)` over five rows the code
returns the single row at index 2, while the claim's formula would return
three rows; only the unset-limit clause of the claim holds. -/
theorem c4_limit_slices_offset_to_max :
    fetchResult limitQuery [rowN 0, rowN 1, rowN 2, rowN 3, rowN 4] = [rowN 2] ∧
    fetchCached (fetchData limitQuery [rowN 0, rowN 1, rowN 2, rowN 3, rowN 4])
      limitQuery.limit = [rowN 2] ∧
    pySlice (fetchData limitQuery [rowN 0, rowN 1, rowN 2, rowN 3, rowN 4]) 2
      (some (2 + 3)) = [rowN 2, rowN 3, rowN 4] ∧
    fetchResult noLimitQuery [rowN 0, rowN 1, rowN 2, rowN 3, rowN 4] =
      [rowN 0, rowN 1, rowN 2, rowN 3, rowN 4] := by
  decide

/-- C5: the claim states each `(column, order)` sort entry applies a stable
sort that is ascending for ASC, yielding `[{x:0,y:9},{x:1,y:1},{x:1,y:2}]` on
the example.  The builder stores the flag `True` for `"ASC"` and the executor
passes it straight to `reverse=`, so an ASC request sorts descending: the
example yields `[{x:0,y:9},{x:1,y:2},{x:1,y:1}]` instead. -/
theorem c5_asc_sorts_descending :
    fetchResult sortQuery [rowXY 1 2, rowXY 1 1, rowXY 0 9] =
      [rowXY 0 9, rowXY 1 2, rowXY 1 1] ∧
    fetchResult sortQuery [rowXY 1 2, rowXY 1 1, rowXY 0 9] ≠
      [rowXY 0 9, rowXY 1 1, rowXY 1 2] := by
  decide

/-- C7 counterexample: the claim states the entry created at `t0 = 0` with
cutoff `t0 + 1 = 1` is invalid (and deleted) when checked at any time after
the cutoff; checking at time `5` actually reports the entry valid and keeps
the file, because `Cache.valid` never consults the clock. -/
theorem c7_counterexample_valid_after_cutoff :
    Cache.valid (some 0) (some 1) 5 = (true, some 0) := rfl

/-- C7 (amended): `Cache.valid` does not depend on the time of the check: it
is true iff the entry file exists and either no expiration is configured or
the file's creation time does not exceed the cutoff; the entry is deleted
exactly when its creation time exceeds the cutoff.  In particular the entry
created at `t0` with cutoff `t0 + 1` is valid at `t0` and at every later
check. -/
theorem c7_cache_validity_ignores_check_time :
    (∀ (file expiration : Option Int) (now now' : Int),
      Cache.valid file expiration now = Cache.valid file expiration now') ∧
    (∀ (t0 now : Int), Cache.valid (some t0) (some (t0 + 1)) now = (true, some t0)) ∧
    (∀ (expiration : Option Int) (now : Int),
      Cache.valid none expiration now = (false, none)) ∧
    (∀ (birth now : Int), Cache.valid (some birth) none now = (true, some birth)) ∧
    (∀ (birth cutoff now : Int), birth > cutoff →
      Cache.valid (some birth) (some cutoff) now = (false, none)) ∧
    (∀ (birth cutoff now : Int), birth ≤ cutoff →
      Cache.valid (some birth) (some cutoff) now = (true, some birth)) := by
  refine ⟨fun f e now now' => rfl, fun t0 now => ?_, fun e now => rfl,
    fun b now => rfl, fun b c now h => ?_, fun b c now h => ?_⟩
  · show (if t0 > t0 + 1 then ((false : Bool), (none : Option Int))
      else (true, some t0)) = (true, some t0)
    rw [if_neg (by omega)]
  · show (if b > c then ((false : Bool), (none : Option Int))
      else (true, some b)) = (false, none)
    rw [if_pos h]
  · show (if b > c then ((false : Bool), (none : Option Int))
      else (true, some b)) = (true, some b)
    rw [if_neg (by omega)]

/-- Witness for C7 (amended) at `t0 = 0`, checked at the late time `5`, and
at an entry genuinely created after its cutoff. -/
theorem c7_cache_validity_witness :
    Cache.valid (some 0) (some 1) 5 = (true, some 0) ∧
    ((5 : Int) > 1 ∧ Cache.valid (some 5) (some 1) 7 = (false, none)) ∧
    ((0 : Int) ≤ 1 ∧ Cache.valid (some 0) (some 1) 0 = (true, some 0)) :=
  ⟨c7_cache_validity_ignores_check_time.2.1 0 5,
   ⟨by decide, c7_cache_validity_ignores_check_time.2.2.2.2.1 5 1 7 (by decide)⟩,
   ⟨by decide, c7_cache_validity_ignores_check_time.2.2.2.2.2 0 1 0 (by decide)⟩⟩

/-- C8: the claim states decryption with a wrong key or tampered ciphertext
fails with `InvalidKeyOrCiphertext` and decryption of an untampered
ciphertext with the right key returns the original value.  `Crypto.decrypt`'s
body reads the undefined name `data` instead of its `cipher` parameter, so
every decryption — right key, wrong key, tampered or not — raises
`NameError`; in particular reading a row's encrypted column with the correct
master key already fails with it. -/
theorem c8_decrypt_always_raises_nameerror :
    (∀ cipher kek : Value, Crypto.decrypt cipher kek = .error (.nameError "data")) ∧
    Row.column encTableWithRow (.str "kekbytes") [] "r1" "secret" =
      .error (.nameError "data") :=
  ⟨fun _ _ => rfl, by decide⟩

/-- C9: the claim states `Schema.add` requires a non-empty single-type value
list for an enum column and `Schema.valid` accepts only declared members.
The supported spelling is `"@enum"`, but the enum-specific code in both
methods is guarded by comparison with the bare string `"enum"`: declaring
`add("color", "@enum")` with no values succeeds, `valid` then accepts any
value of a supported runtime type, and the claim's spelling `"enum"` is
rejected as an unsupported type outright. -/
theorem c9_enum_checks_are_dead_code :
    Schema.add SchemaState.empty "color" "@enum" ⟨false, false, none⟩ = .ok enumState ∧
    Schema.valid enumState "color" (.str "purple") = true ∧
    Schema.add SchemaState.empty "color" "enum" ⟨false, false, some [.str "red"]⟩ =
      .error (.valueError "Unsupported type for column color") := by
  decide

/-- C10: for a column name not declared in the schema, `Schema.valid` returns
`True` for every value (`self.get(name)` is `None`), so `Table.insert`
accepts and persists undeclared columns with no validation: inserting
`{"zzz": v}` into a table whose schema declares only `a` writes a row file
whose sorted header is `["a","zzz"]` holding the defaulted `None` and `v`. -/
theorem c10_undeclared_columns_accepted_and_persisted :
    (∀ (s : SchemaState) (name : String) (v : Value),
      dictGet s.cols name = none → Schema.valid s name v = true) ∧
    (∀ v : Value,
      Table.insert .null plainTable [("zzz", v)] "id1" =
        .ok (⟨plainTable.schema, plainTable.dek,
              [("id1", ⟨["a", "zzz"], [.null, v]⟩)]⟩, true)) := by
  constructor
  · intro s name v h
    unfold Schema.valid
    rw [h]
  · intro v
    rfl

/-- Witness for C10 at a concrete undeclared column name and value. -/
theorem c10_undeclared_witness :
    dictGet enumState.cols "zzz" = none ∧
    Schema.valid enumState "zzz" (.int 5) = true ∧
    Table.insert .null plainTable [("zzz", .int 5)] "id1" =
      .ok (⟨plainTable.schema, plainTable.dek,
            [("id1", ⟨["a", "zzz"], [.null, .int 5]⟩)]⟩, true) :=
  ⟨rfl, c10_undeclared_columns_accepted_and_persisted.1 enumState "zzz" (.int 5) rfl,
   c10_undeclared_columns_accepted_and_persisted.2 (.int 5)⟩

/-- C6 counterexample: the claim quantifies over any same set of builder
calls applied in different orders, but two `where` calls on the same column
overwrite each other in the `where` dict (last call wins), so the two orders
of the set `{where(a,"=",1), where(a,"=",2)}` normalize to different
descriptors. -/
theorem c6_counterexample_duplicate_where_column :
    normalize (applyCalls [.whereC "a" "=" (.int 1), .whereC "a" "=" (.int 2)]) ≠
      normalize (applyCalls [.whereC "a" "=" (.int 2), .whereC "a" "=" (.int 1)]) := by
  decide

/-- C6 (amended): two builders constructed by applying the same set of
`where`/`join`/`select`/`distinct`/`sort`/`map`/`filter` calls in different
orders normalize to identical descriptors and identical cache fingerprints,
provided no two `where` calls share a column, no two `join` calls share a
table and no two `select` calls share a source column (with a duplicate key
the later call overwrites the earlier one, so order matters).  No condition
is needed on `map`/`filter`: permuting the calls yields the same sorted
entry list when all callbacks coincide and the identical `TypeError` from
`normalize` otherwise. -/
theorem c6_normalize_order_independent (l1 l2 : List Call) (h : l1.Perm l2)
    (hw : ((whereOf l1).map Prod.fst).Nodup)
    (hj : ((joinOf l1).map Prod.fst).Nodup)
    (hs : ((selectOf l1).map Prod.fst).Nodup) :
    normalize (applyCalls l1) = normalize (applyCalls l2) ∧
    Except.map queryFingerprint (normalize (applyCalls l1)) =
      Except.map queryFingerprint (normalize (applyCalls l2)) := by
  have hwp : (whereOf l1).Perm (whereOf l2) := h.filterMap _
  have hjp : (joinOf l1).Perm (joinOf l2) := h.filterMap _
  have hsp : (selectOf l1).Perm (selectOf l2) := h.filterMap _
  have hw2 : ((whereOf l2).map Prod.fst).Nodup := ((hwp.map Prod.fst).nodup_iff).mp hw
  have hj2 : ((joinOf l2).map Prod.fst).Nodup := ((hjp.map Prod.fst).nodup_iff).mp hj
  have hs2 : ((selectOf l2).map Prod.fst).Nodup := ((hsp.map Prod.fst).nodup_iff).mp hs
  have w1 : (applyCalls l1).whereCl = whereOf l1 :=
    (foldl_whereCl l1 QueryState.empty).trans (dictInsertAll_nil_of_nodup _ hw)
  have w2 : (applyCalls l2).whereCl = whereOf l2 :=
    (foldl_whereCl l2 QueryState.empty).trans (dictInsertAll_nil_of_nodup _ hw2)
  have j1 : (applyCalls l1).join = joinOf l1 :=
    (foldl_join l1 QueryState.empty).trans (dictInsertAll_nil_of_nodup _ hj)
  have j2 : (applyCalls l2).join = joinOf l2 :=
    (foldl_join l2 QueryState.empty).trans (dictInsertAll_nil_of_nodup _ hj2)
  have s1 : (applyCalls l1).select = selectOf l1 :=
    (foldl_select l1 QueryState.empty).trans (dictInsertAll_nil_of_nodup _ hs)
  have s2 : (applyCalls l2).select = selectOf l2 :=
    (foldl_select l2 QueryState.empty).trans (dictInsertAll_nil_of_nodup _ hs2)
  have d1 : (applyCalls l1).distinct = distinctOf l1 :=
    (foldl_distinct l1 QueryState.empty).trans (List.nil_append _)
  have d2 : (applyCalls l2).distinct = distinctOf l2 :=
    (foldl_distinct l2 QueryState.empty).trans (List.nil_append _)
  have so1 : (applyCalls l1).sortCl = sortOf l1 :=
    (foldl_sortCl l1 QueryState.empty).trans (List.nil_append _)
  have so2 : (applyCalls l2).sortCl = sortOf l2 :=
    (foldl_sortCl l2 QueryState.empty).trans (List.nil_append _)
  have m1 : (applyCalls l1).mapCb = mapOf l1 :=
    (foldl_mapCb l1 QueryState.empty).trans (List.nil_append _)
  have m2 : (applyCalls l2).mapCb = mapOf l2 :=
    (foldl_mapCb l2 QueryState.empty).trans (List.nil_append _)
  have f1 : (applyCalls l1).filterCb = filterOf l1 :=
    (foldl_filterCb l1 QueryState.empty).trans (List.nil_append _)
  have f2 : (applyCalls l2).filterCb = filterOf l2 :=
    (foldl_filterCb l2 QueryState.empty).trans (List.nil_append _)
  have eqw : sortByKey (applyCalls l1).whereCl = sortByKey (applyCalls l2).whereCl := by
    rw [w1, w2]
    exact sortByKey_eq_of_perm hwp hw
  have eqj : sortByKey (applyCalls l1).join = sortByKey (applyCalls l2).join := by
    rw [j1, j2]
    exact sortByKey_eq_of_perm hjp hj
  have eqs : sortByKey (applyCalls l1).select = sortByKey (applyCalls l2).select := by
    rw [s1, s2]
    exact sortByKey_eq_of_perm hsp hs
  have eqd : List.insertionSort strLe (applyCalls l1).distinct =
      List.insertionSort strLe (applyCalls l2).distinct := by
    haveI : IsTotal String strLe := ⟨strLe_total⟩
    haveI : IsTrans String strLe := ⟨strLe_trans⟩
    haveI : IsAntisymm String strLe := ⟨strLe_antisymm⟩
    rw [d1, d2]
    exact insertionSort_eq_of_perm strLe (h.filterMap _)
  have eqso : List.insertionSort sbLe (applyCalls l1).sortCl =
      List.insertionSort sbLe (applyCalls l2).sortCl := by
    haveI : IsTotal (String × Bool) sbLe := ⟨sbLe_total⟩
    haveI : IsTrans (String × Bool) sbLe := ⟨sbLe_trans⟩
    haveI : IsAntisymm (String × Bool) sbLe := ⟨sbLe_antisymm⟩
    rw [so1, so2]
    exact insertionSort_eq_of_perm sbLe (h.filterMap _)
  have eqm : sortCallbacks (applyCalls l1).mapCb = sortCallbacks (applyCalls l2).mapCb := by
    rw [m1, m2]
    exact sortCallbacks_eq_of_perm (h.filterMap _)
  have eqf : sortCallbacks (applyCalls l1).filterCb =
      sortCallbacks (applyCalls l2).filterCb := by
    rw [f1, f2]
    exact sortCallbacks_eq_of_perm (h.filterMap _)
  have main : normalize (applyCalls l1) = normalize (applyCalls l2) := by
    unfold normalize
    rw [eqm, eqf, eqw, eqj, eqs, eqd, eqso]
  exact ⟨main, by rw [main]⟩

/-- Witness for C6 (amended): two concrete permutations of one call set with
pairwise-distinct dict keys normalize identically. -/
theorem c6_normalize_witness :
    (c6CallsA.Perm c6CallsB ∧ ((whereOf c6CallsA).map Prod.fst).Nodup ∧
      ((joinOf c6CallsA).map Prod.fst).Nodup ∧
      ((selectOf c6CallsA).map Prod.fst).Nodup) ∧
    normalize (applyCalls c6CallsA) = normalize (applyCalls c6CallsB) :=
  ⟨⟨by decide, by decide, by decide, by decide⟩,
   (c6_normalize_order_independent c6CallsA c6CallsB (by decide) (by decide)
     (by decide) (by decide)).1⟩

end FlintDB
